import Mathlib

/-!
# Verification of the incremental-sync core of confluence-markdown-exporter

Shallow embedding of `confluence_markdown_exporter/state.py`,
`confluence_markdown_exporter/sync.py` and the scope-recording parts of
`confluence_markdown_exporter/main.py`.

Modelling conventions:
* Python `dict[str, V]` values are modelled as insertion-ordered association
  lists `List (String × V)`; `dget` is `dict.get`, `dset` is `d[k] = v`
  (replace in place, append at the end when the key is fresh), matching
  CPython's ordered-dict semantics.  Well-formed dicts have `nodupKeys`.
* `datetime` values are modelled as integers carrying only their total order
  (the code only compares datetimes with `<` and stores/reads them).
* Remote API calls and file-system primitives are external collaborators;
  they enter the model as explicit environment parameters.
-/

namespace Cme

/-- `dict.get k`: first binding of `k` in an association list. -/
def dget {α : Type} : List (String × α) → String → Option α
  | [], _ => none
  | p :: rest, k => if p.1 = k then some p.2 else dget rest k

/-- `d[k] = v`: replace the first binding of `k`, or append a fresh one,
preserving insertion order (CPython dict update semantics). -/
def dset {α : Type} : List (String × α) → String → α → List (String × α)
  | [], k, v => [(k, v)]
  | p :: rest, k, v => if p.1 = k then (k, v) :: rest else p :: dset rest k v

/-- Well-formedness of a modelled dict: no duplicate keys. -/
def nodupKeys {α : Type} (l : List (String × α)) : Prop :=
  (l.map Prod.fst).Nodup

instance {α : Type} (l : List (String × α)) : Decidable (nodupKeys l) :=
  inferInstanceAs (Decidable (l.map Prod.fst).Nodup)

/-- `PageState.status` (state.py): `Literal["active", "deleted"]`. -/
inductive Status where
  | active
  | deleted
deriving DecidableEq, Repr

/-- `PageState` (state.py): per-page export record. -/
structure PageState where
  version : Int
  last_exported : Int
  output_path : String
  status : Status
deriving DecidableEq, Repr

/-- `ScopeEntry` (state.py): recorded CLI command plus its arguments. -/
structure ScopeEntry where
  command : String
  args : List String
deriving DecidableEq, Repr

/-- `ExportState` (state.py): root aggregate persisted to `.cme-state.json`. -/
structure ExportState where
  schema_version : Int := 1
  confluence_url : String
  scopes : List ScopeEntry
  min_export_timestamp : Option Int := none
  pages : List (String × PageState) := []
deriving DecidableEq, Repr

/-- `SyncDelta` (state.py): five buckets of page ids. -/
structure SyncDelta where
  new : List String := []
  modified : List String := []
  stale : List String := []
  deleted : List String := []
  unchanged : List String := []
deriving DecidableEq, Repr

/-- Names of the five `SyncDelta` buckets. -/
inductive Bucket where
  | new
  | modified
  | stale
  | deleted
  | unchanged
deriving DecidableEq, Repr

/-- The staleness test of `compute_delta` (state.py lines 229-232):
`state.min_export_timestamp is not None and page_state.last_exported <
state.min_export_timestamp`. -/
def isStale (state : ExportState) (ps : PageState) : Bool :=
  match state.min_export_timestamp with
  | some t => decide (ps.last_exported < t)
  | none => false

/-- Loop body of the first loop of `compute_delta` (state.py lines 211-236):
classify one `(page_id, current_version)` item of `current_pages` and append
the id to the matching bucket. -/
def classifyCurrent (state : ExportState) (d : SyncDelta) (id : String)
    (v : Int) : SyncDelta :=
  match dget state.pages id with
  | none => { d with new := d.new ++ [id] }
  | some ps =>
    if ps.status = Status.deleted then { d with new := d.new ++ [id] }
    else if v ≤ 0 then { d with modified := d.modified ++ [id] }
    else if v > ps.version then { d with modified := d.modified ++ [id] }
    else if isStale state ps then { d with stale := d.stale ++ [id] }
    else { d with unchanged := d.unchanged ++ [id] }

/-- Loop body of the second loop of `compute_delta` (state.py lines 239-243):
append ids that are active in state but absent from `current_pages` to the
deleted bucket. -/
def classifyStored (current : List (String × Int)) (d : SyncDelta)
    (p : String × PageState) : SyncDelta :=
  if p.2.status = Status.deleted then d
  else if dget current p.1 = none then { d with deleted := d.deleted ++ [p.1] }
  else d

/-- `compute_delta` (state.py lines 188-245). -/
def compute_delta (state : ExportState) (current : List (String × Int)) :
    SyncDelta :=
  let d := current.foldl (fun d p => classifyCurrent state d p.1 p.2) {}
  state.pages.foldl (classifyStored current) d

/-- The per-id classification rule as the spec states it (spec §4.3, claim C1):
first matching rule wins.  Stated independently of the loop in
`compute_delta`; the delta theorems relate the two. -/
def bucketOf (state : ExportState) (id : String) (v : Int) : Bucket :=
  match dget state.pages id with
  | none => Bucket.new
  | some ps =>
    if ps.status = Status.deleted then Bucket.new
    else if v ≤ 0 then Bucket.modified
    else if v > ps.version then Bucket.modified
    else if isStale state ps then Bucket.stale
    else Bucket.unchanged

/-- Ids of `current` that the spec rule sends to bucket `b`. -/
def bucketIds (state : ExportState) (current : List (String × Int))
    (b : Bucket) : List String :=
  (current.filter (fun p => decide (bucketOf state p.1 p.2 = b))).map Prod.fst

/-- Ids that the spec's deletion rule marks deleted: active in `pages` and
absent from `current`. -/
def deletedIds (pages : List (String × PageState))
    (current : List (String × Int)) : List String :=
  (pages.filter
    (fun p => decide (p.2.status ≠ Status.deleted ∧ dget current p.1 = none))).map
    Prod.fst

/-- Append an id to the named bucket of a delta. -/
def pushBucket (d : SyncDelta) (b : Bucket) (id : String) : SyncDelta :=
  match b with
  | Bucket.new => { d with new := d.new ++ [id] }
  | Bucket.modified => { d with modified := d.modified ++ [id] }
  | Bucket.stale => { d with stale := d.stale ++ [id] }
  | Bucket.deleted => { d with deleted := d.deleted ++ [id] }
  | Bucket.unchanged => { d with unchanged := d.unchanged ++ [id] }

/-- `update_page_state` (state.py lines 117-137); `now` is the
`datetime.now(tz=timezone.utc)` observed at the call. -/
def update_page_state (state : ExportState) (page_id : String) (version : Int)
    (output_path : String) (now : Int) : ExportState :=
  { state with
    pages := dset state.pages page_id
      ⟨version, now, output_path, Status.active⟩ }

/-- Body of the merge loop of `replay_scopes` (sync.py lines 177-182): merge
one `(page_id, version)` item into the accumulated mapping. -/
def mergeStep (m : String → Option Int) (p : String × Int) :
    String → Option Int :=
  match m p.1 with
  | some existing =>
    if p.2 ≤ 0 then m
    else if p.2 > existing then fun k => if k = p.1 then some p.2 else m k
    else m
  | none => fun k => if k = p.1 then some p.2 else m k

/-- The merge performed by `replay_scopes` over the per-scope version maps
(sync.py lines 162-184 with the per-scope fetch abstracted out). -/
def mergeScopeMaps (maps : List (List (String × Int))) :
    String → Option Int :=
  maps.foldl (fun merged pairs => pairs.foldl mergeStep merged)
    (fun _ => none)

/-- The remote side of scope replay: results of the four `_replay_*_scope`
helpers of sync.py, which only perform API calls. -/
structure ReplayEnv where
  spacesPages : List String → List (String × Int)
  allSpacesPages : List (String × Int)
  pagesPages : List String → List (String × Int)
  pagesWithDescendantsPages : List String → List (String × Int)

/-- The command dispatch of `replay_scopes` (sync.py lines 165-175):
`none` models the `else: logger.warning(...); continue` arm. -/
def scopeResult (env : ReplayEnv) (scope : ScopeEntry) :
    Option (List (String × Int)) :=
  if scope.command = "spaces" then some (env.spacesPages scope.args)
  else if scope.command = "all-spaces" then some env.allSpacesPages
  else if scope.command = "pages" then some (env.pagesPages scope.args)
  else if scope.command = "pages-with-descendants" then
    some (env.pagesWithDescendantsPages scope.args)
  else none

/-- `replay_scopes` (sync.py lines 146-184). -/
def replay_scopes (env : ReplayEnv) (state : ExportState) :
    String → Option Int :=
  state.scopes.foldl
    (fun merged scope =>
      match scopeResult env scope with
      | none => merged
      | some pages => pages.foldl mergeStep merged)
    (fun _ => none)

/-- The four command strings the dispatch of `replay_scopes` recognizes. -/
def recognizedCommand (c : String) : Bool :=
  (c == "spaces") || (c == "all-spaces") || (c == "pages") ||
    (c == "pages-with-descendants")

/-- Command strings the CLI export commands record into
`ScopeEntry.command` (main.py lines 121, 162, 207, 247). -/
def cliPagesCommand : String := "pages"

/-- See `cliPagesCommand`; recorded by the `pages_with_descendants` CLI
command (main.py line 162). -/
def cliPagesWithDescendantsCommand : String := "pages_with_descendants"

/-- See `cliPagesCommand`; recorded by the `spaces` CLI command
(main.py line 207). -/
def cliSpacesCommand : String := "spaces"

/-- See `cliPagesCommand`; recorded by the `all_spaces` CLI command
(main.py line 247). -/
def cliAllSpacesCommand : String := "all_spaces"

/-- Versions recorded for `id` across a flat list of `(id, version)` items,
in processing order. -/
def occVals (pairs : List (String × Int)) (id : String) : List Int :=
  (pairs.filter (fun p => decide (p.1 = id))).map Prod.snd

/-- The positive versions among `occVals`. -/
def posVals (pairs : List (String × Int)) (id : String) : List Int :=
  (occVals pairs id).filter (fun v => decide (0 < v))

/-- Accumulator of the merge restricted to one id: fold the merge decision
(`take v when it is positive and beats the current value`) over a list of
versions. -/
def posFold (e : Int) (l : List Int) : Int :=
  l.foldl (fun a v => if 0 < v ∧ a < v then v else a) e

/-- The external collaborators of `execute_sync` / `export_and_track`
(sync.py): per-page results of `Page.from_id(...)` plus the path-resolution
outcome of the deletion guard.  `fetchAccessible id = false` models
`page.title == "Page not accessible"`; `resolveInside rel = true` models
`(output_path / rel).resolve().is_relative_to(output_path.resolve())`. -/
structure ExecEnv where
  fetchVersion : String → Int
  fetchPath : String → String
  fetchAccessible : String → Bool
  exportTime : String → Int
  resolveInside : String → Bool

/-- Observable effects of one `execute_sync` run: local files (keyed by the
recorded relative output path, `true` = exists and is a regular file), the
in-memory state, warnings surfaced so far, and the sequence of state
snapshots passed to `save_state`. -/
structure ExecAcc where
  files : String → Bool
  state : ExportState
  warnings : List String
  saved : List ExportState

/-- Body of the `export_and_track` loop (sync.py lines 209-222): export one
page, then update and persist state unless the page is inaccessible. -/
def exportOne (env : ExecEnv) (acc : ExecAcc) (id : String) : ExecAcc :=
  if env.fetchAccessible id then
    let st := update_page_state acc.state id (env.fetchVersion id)
      (env.fetchPath id) (env.exportTime id)
    { acc with state := st, saved := acc.saved ++ [st] }
  else acc

/-- Body of the deletion loop of `execute_sync` (sync.py lines 257-276):
remove the orphan file when its resolved path stays inside the output tree,
warn otherwise, mark the record deleted, and persist state either way. -/
def deleteOne (env : ExecEnv) (acc : ExecAcc) (id : String) : ExecAcc :=
  match dget acc.state.pages id with
  | some ps =>
    let files :=
      if env.resolveInside ps.output_path then
        if acc.files ps.output_path then
          fun p => if p = ps.output_path then false else acc.files p
        else acc.files
      else acc.files
    let warnings :=
      if env.resolveInside ps.output_path then acc.warnings
      else acc.warnings ++ [ps.output_path]
    let st := { acc.state with
      pages := dset acc.state.pages id { ps with status := Status.deleted } }
    { files := files, state := st, warnings := warnings,
      saved := acc.saved ++ [st] }
  | none => { acc with saved := acc.saved ++ [acc.state] }

/-- `execute_sync` (sync.py lines 225-276). -/
def execute_sync (env : ExecEnv) (files : String → Bool)
    (state : ExportState) (delta : SyncDelta) (dryRun : Bool) : ExecAcc :=
  if dryRun then ⟨files, state, [], []⟩
  else
    let acc1 := (delta.new ++ delta.modified ++ delta.stale).foldl
      (exportOne env) ⟨files, state, [], []⟩
    delta.deleted.foldl (deleteOne env) acc1

/-- JSON document AST.  The state file is UTF-8 JSON text; the model works
at the level of parsed documents, treating JSON rendering/parsing and the
ISO-8601 encoding of datetimes as identities. -/
inductive Json where
  | null
  | num (n : Int)
  | str (s : String)
  | arr (items : List Json)
  | obj (fields : List (String × Json))

/-- `STATE_FILENAME` (state.py line 19). -/
def stateFilename : String := ".cme-state.json"

def encodeStatus : Status → Json
  | Status.active => Json.str "active"
  | Status.deleted => Json.str "deleted"

def decodeStatus : Json → Option Status
  | Json.str "active" => some Status.active
  | Json.str "deleted" => some Status.deleted
  | _ => none

def encodeOptTimestamp : Option Int → Json
  | none => Json.null
  | some t => Json.num t

def decodeOptTimestamp : Json → Option (Option Int)
  | Json.null => some none
  | Json.num t => some (some t)
  | _ => none

/-- Serialization of a `PageState`, following the pydantic model fields. -/
def encodePageState (ps : PageState) : Json :=
  Json.obj [("version", Json.num ps.version),
            ("last_exported", Json.num ps.last_exported),
            ("output_path", Json.str ps.output_path),
            ("status", encodeStatus ps.status)]

/-- Validation of a `PageState`, following `ExportState.model_validate`. -/
def decodePageState : Json → Option PageState
  | Json.obj fields =>
    match dget fields "version", dget fields "last_exported",
        dget fields "output_path", dget fields "status" with
    | some (Json.num v), some (Json.num t), some (Json.str p), some st =>
      (match decodeStatus st with
       | some s => some ⟨v, t, p, s⟩
       | none => none)
    | _, _, _, _ => none
  | _ => none

def encodeScopeEntry (sc : ScopeEntry) : Json :=
  Json.obj [("command", Json.str sc.command),
            ("args", Json.arr (sc.args.map Json.str))]

def decodeStrings : List Json → Option (List String)
  | [] => some []
  | Json.str s :: rest => (decodeStrings rest).map (fun l => s :: l)
  | _ => none

def decodeScopeEntry : Json → Option ScopeEntry
  | Json.obj fields =>
    match dget fields "command", dget fields "args" with
    | some (Json.str c), some (Json.arr items) =>
      (match decodeStrings items with
       | some args => some ⟨c, args⟩
       | none => none)
    | _, _ => none
  | _ => none

def decodeScopes : List Json → Option (List ScopeEntry)
  | [] => some []
  | j :: rest =>
    match decodeScopeEntry j, decodeScopes rest with
    | some sc, some tail => some (sc :: tail)
    | _, _ => none

def decodePages : List (String × Json) → Option (List (String × PageState))
  | [] => some []
  | (k, j) :: rest =>
    match decodePageState j, decodePages rest with
    | some ps, some tail => some ((k, ps) :: tail)
    | _, _ => none

/-- Serialization of an `ExportState` (`state.model_dump_json`). -/
def encodeExportState (s : ExportState) : Json :=
  Json.obj [("schema_version", Json.num s.schema_version),
            ("confluence_url", Json.str s.confluence_url),
            ("scopes", Json.arr (s.scopes.map encodeScopeEntry)),
            ("min_export_timestamp",
              encodeOptTimestamp s.min_export_timestamp),
            ("pages",
              Json.obj (s.pages.map (fun p => (p.1, encodePageState p.2))))]

/-- Validation of an `ExportState` (`ExportState.model_validate`). -/
def decodeExportState : Json → Option ExportState
  | Json.obj fields =>
    match dget fields "schema_version", dget fields "confluence_url",
        dget fields "scopes", dget fields "min_export_timestamp",
        dget fields "pages" with
    | some (Json.num sv), some (Json.str u), some (Json.arr scs), some ts,
        some (Json.obj pgs) =>
      (match decodeScopes scs, decodeOptTimestamp ts, decodePages pgs with
       | some scopes, some mts, some pages => some ⟨sv, u, scopes, mts, pages⟩
       | _, _, _ => none)
    | _, _, _, _, _ => none
  | _ => none

/-- File contents of the export directory at the granularity of parsed JSON
documents: `fs name = some j` means file `name` exists and holds document
`j`.  The empty file created by `NamedTemporaryFile` before any write is
represented by the placeholder `Json.null`. -/
def Fs : Type := String → Option Json

def fsSet (fs : Fs) (k : String) (v : Option Json) : Fs :=
  fun k' => if k' = k then v else fs k'

/-- Where a `BaseException` strikes inside the `try` block of `save_state`:
while creating the temp file (before `tmp_path` is assigned), while writing
to it, during the atomic `tmp_path.replace`, or nowhere. -/
inductive FailPoint where
  | noFail
  | atCreate
  | atWrite
  | atReplace
deriving DecidableEq

/-- Result of `save_state`: `err` models the re-raised exception, carrying
the directory contents left behind. -/
inductive SaveOutcome where
  | ok (fs : Fs)
  | err (fs : Fs)

/-- `save_state` (state.py lines 85-114): create a fresh temp file `tmp`,
write the serialized state, atomically replace the canonical file; on any
failure unlink the temp file (when it was created) and re-raise. -/
def save_state (fs : Fs) (tmp : String) (state : ExportState)
    (fp : FailPoint) : SaveOutcome :=
  match fp with
  | FailPoint.atCreate => SaveOutcome.err fs
  | FailPoint.atWrite =>
      SaveOutcome.err (fsSet (fsSet fs tmp (some Json.null)) tmp none)
  | FailPoint.atReplace =>
      SaveOutcome.err
        (fsSet (fsSet (fsSet fs tmp (some Json.null)) tmp
          (some (encodeExportState state))) tmp none)
  | FailPoint.noFail =>
      let written := fsSet (fsSet fs tmp (some Json.null)) tmp
        (some (encodeExportState state))
      SaveOutcome.ok
        (fsSet (fsSet written stateFilename (some (encodeExportState state)))
          tmp none)

/-- Result of `load_state`: file missing (`None` in the code), present but
invalid (the propagated validation error), or loaded. -/
inductive LoadResult where
  | absent
  | corrupt
  | ok (s : ExportState)

/-- `load_state` (state.py lines 69-82). -/
def load_state (fs : Fs) : LoadResult :=
  match fs stateFilename with
  | none => LoadResult.absent
  | some j =>
    match decodeExportState j with
    | some s => LoadResult.ok s
    | none => LoadResult.corrupt

/-- The label used for a report line (sync.py lines 300-301, 305-306,
310-311, 315-316): the stored relative output path, falling back to
`"page <id>"` for ids not in state. -/
def pageLabel (state : ExportState) (id : String) : String :=
  match dget state.pages id with
  | some ps => ps.output_path
  | none => "page " ++ id

/-- `format_sync_report` (sync.py lines 279-331). -/
def format_sync_report (delta : SyncDelta) (state : ExportState) : String :=
  let lines : List String := []
  let lines := delta.new.foldl
    (fun ls id => ls ++ ["  new:  " ++ pageLabel state id]) lines
  let lines := delta.modified.foldl
    (fun ls id => ls ++ ["  mod:  " ++ pageLabel state id]) lines
  let lines := delta.stale.foldl
    (fun ls id => ls ++ ["  stale:  " ++ pageLabel state id]) lines
  let lines := delta.deleted.foldl
    (fun ls id => ls ++ ["  del:  " ++ pageLabel state id]) lines
  let parts : List String :=
    [toString delta.new.length ++ " new",
     toString delta.modified.length ++ " modified"]
  let parts := if delta.stale.length ≠ 0 then
      parts ++ [toString delta.stale.length ++ " stale"] else parts
  let parts := parts ++
    [toString delta.deleted.length ++ " deleted",
     toString delta.unchanged.length ++ " unchanged"]
  let lines := lines ++ [String.intercalate ", " parts]
  String.intercalate "\n" lines

/-- The report as the spec describes it (§4.5): one line per changed entity
grouped new → modified → stale → deleted, each showing the stored relative
output path (or the fallback label for ids not in state), then a
comma-joined summary whose stale segment appears only when the stale count
is nonzero. -/
def reportSpec (delta : SyncDelta) (state : ExportState) : String :=
  String.intercalate "\n"
    (delta.new.map (fun id => "  new:  " ++ pageLabel state id) ++
     delta.modified.map (fun id => "  mod:  " ++ pageLabel state id) ++
     delta.stale.map (fun id => "  stale:  " ++ pageLabel state id) ++
     delta.deleted.map (fun id => "  del:  " ++ pageLabel state id) ++
     [String.intercalate ", "
       ([toString delta.new.length ++ " new",
         toString delta.modified.length ++ " modified"] ++
        (if delta.stale.length ≠ 0 then
          [toString delta.stale.length ++ " stale"] else []) ++
        [toString delta.deleted.length ++ " deleted",
         toString delta.unchanged.length ++ " unchanged"])])

/-! Concrete fixtures used by the witness and counterexample theorems. -/

/-- A tracked page record used in examples. -/
def exPage : PageState := ⟨3, 10, "spaces/ENG/p2.md", Status.active⟩

/-- A small state with one tracked page. -/
def exState : ExportState :=
  { schema_version := 1
    confluence_url := "https://test.atlassian.net"
    scopes := [⟨"spaces", ["ENG"]⟩]
    min_export_timestamp := none
    pages := [("p2", exPage)] }

/-- A replayed version map: `p1` is new, `p2` moved from version 3 to 5. -/
def exCurrent : List (String × Int) := [("p1", 1), ("p2", 5)]

/-- A populated state exercising every field: two scopes, a set force
threshold, an active page and a tombstone. -/
def exRichState : ExportState :=
  { schema_version := 1
    confluence_url := "https://test.atlassian.net"
    scopes := [⟨"spaces", ["ENG", "OPS"]⟩, ⟨"pages", ["301"]⟩]
    min_export_timestamp := some 50
    pages := [("100", ⟨3, 40, "spaces/ENG/a.md", Status.active⟩),
              ("200", ⟨1, 20, "spaces/OPS/b.md", Status.deleted⟩)] }

/-- An empty directory. -/
def exFsEmpty : Fs := fun _ => none

/-- A fresh temporary file name as `NamedTemporaryFile(suffix=".tmp")`
produces it. -/
def exTmp : String := "tmpw1kqj3x.tmp"

/-- Per-scope version maps used to exercise the merge rule. -/
def ex3Maps : List (List (String × Int)) :=
  [[("a", 2)], [("a", 5), ("b", 0)], [("a", 0)]]

/-- Remote fixture for the scope-dispatch bug: replaying the recorded
pages-with-descendants scope for root 401 would find pages 401 and 402, an
organization-wide replay would find page 601. -/
def bugReplayEnv : ReplayEnv :=
  { spacesPages := fun _ => []
    allSpacesPages := [("601", 2)]
    pagesPages := fun _ => []
    pagesWithDescendantsPages := fun _ => [("401", 3), ("402", 1)] }

/-- State written by the CLI command `pages_with_descendants 401`
(main.py lines 159-165). -/
def bugStatePwd : ExportState :=
  { confluence_url := "https://test.atlassian.net"
    scopes := [⟨cliPagesWithDescendantsCommand, ["401"]⟩]
    pages := [] }

/-- State written by the CLI command `all_spaces` (main.py lines 244-250). -/
def bugStateAll : ExportState :=
  { confluence_url := "https://test.atlassian.net"
    scopes := [⟨cliAllSpacesCommand, []⟩]
    pages := [] }

/-- Environment for the idempotence counterexample: the remote page `p1`
is at version 1 on both runs, but the replayed mapping carries the sentinel
0 for it (transient version-fetch error), identically on both runs. -/
def c7Env : ExecEnv :=
  { fetchVersion := fun _ => 1
    fetchPath := fun _ => "p1.md"
    fetchAccessible := fun _ => true
    exportTime := fun _ => 100
    resolveInside := fun _ => true }

/-- State before the first sync of the idempotence counterexample. -/
def c7State : ExportState :=
  { confluence_url := "https://test.atlassian.net"
    scopes := [⟨"pages", ["p1"]⟩]
    pages := [("p1", ⟨1, 10, "p1.md", Status.active⟩)] }

/-- The replayed mapping of the idempotence counterexample, identical on
both runs. -/
def c7Current : List (String × Int) := [("p1", 0)]

/-- Environment for the idempotence witness: export fetches agree with the
replayed versions of `exCurrent` (no remote changes, no sentinels). -/
def c7wEnv : ExecEnv :=
  { fetchVersion := fun id => if id = "p1" then 1 else 5
    fetchPath := fun id => id ++ ".md"
    fetchAccessible := fun _ => true
    exportTime := fun _ => 100
    resolveInside := fun _ => true }

/-- Environment for the deletion claims: every recorded path resolves
inside the output tree except the traversal path. -/
def ex8Env : ExecEnv :=
  { fetchVersion := fun _ => 1
    fetchPath := fun _ => "x.md"
    fetchAccessible := fun _ => true
    exportTime := fun _ => 0
    resolveInside := fun p => p != "../../etc/passwd" }

/-- Accumulator for the deletion claims: one orphan file on disk, one
record whose stored path escapes the output tree. -/
def ex8Acc : ExecAcc :=
  { files := fun p => p == "docs/old.md"
    state := { confluence_url := "https://test.atlassian.net"
               scopes := []
               pages := [("7", ⟨2, 5, "docs/old.md", Status.active⟩),
                         ("8", ⟨1, 5, "../../etc/passwd", Status.active⟩)] }
    warnings := []
    saved := [] }

/-- A delta with a single new page that state does not know yet. -/
def c9Delta : SyncDelta := { new := ["12345"] }

/-- A state with no tracked pages. -/
def c9State : ExportState :=
  { confluence_url := "https://test.atlassian.net"
    scopes := [] }

theorem dget_eq_some_mem {α : Type} {l : List (String × α)} {k : String}
    {v : α} (h : dget l k = some v) : (k, v) ∈ l := by
  induction l with
  | nil => simp [dget] at h
  | cons p rest ih =>
    by_cases hp : p.1 = k
    · simp [dget, hp] at h
      have hpv : p = (k, v) := by
        cases p with
        | mk a b => simp_all
      exact List.mem_cons.mpr (Or.inl hpv.symm)
    · simp [dget, hp] at h
      exact List.mem_cons_of_mem _ (ih h)

theorem mem_dget_of_nodup {α : Type} {l : List (String × α)} {k : String}
    {v : α} (hn : nodupKeys l) (h : (k, v) ∈ l) : dget l k = some v := by
  induction l with
  | nil => simp at h
  | cons p rest ih =>
    simp only [nodupKeys, List.map_cons, List.nodup_cons] at hn
    rcases List.mem_cons.mp h with h1 | h1
    · simp [dget, ← h1]
    · have hk : k ∈ rest.map Prod.fst :=
        List.mem_map.mpr ⟨(k, v), h1, rfl⟩
      have hp : p.1 ≠ k := fun he => hn.1 (he ▸ hk)
      simp [dget, hp]
      exact ih hn.2 h1

theorem dget_eq_none_iff {α : Type} {l : List (String × α)} {k : String} :
    dget l k = none ↔ k ∉ l.map Prod.fst := by
  induction l with
  | nil => simp [dget]
  | cons p rest ih =>
    by_cases hp : p.1 = k
    · simp [dget, hp]
    · have hk : ¬k = p.1 := fun h => hp h.symm
      simp [dget, hp, ih, hk]

theorem dget_dset_self {α : Type} (l : List (String × α)) (k : String)
    (v : α) : dget (dset l k v) k = some v := by
  induction l with
  | nil => simp [dget, dset]
  | cons p rest ih =>
    by_cases hp : p.1 = k <;> simp [dget, dset, hp, ih]

theorem dget_dset_other {α : Type} (l : List (String × α)) {k k' : String}
    (v : α) (h : k ≠ k') : dget (dset l k v) k' = dget l k' := by
  induction l with
  | nil => simp [dget, dset, h]
  | cons p rest ih =>
    by_cases hp : p.1 = k
    · subst hp
      simp [dset, dget, h]
    · simp [dset, hp, dget, ih]

theorem mem_keys_dset {α : Type} (l : List (String × α)) (k a : String)
    (v : α) :
    a ∈ (dset l k v).map Prod.fst ↔ a ∈ l.map Prod.fst ∨ a = k := by
  induction l with
  | nil => simp [dset, eq_comm]
  | cons p rest ih =>
    by_cases hp : p.1 = k
    · subst hp
      simp [dset]
      tauto
    · simp [dset, hp, ih, or_assoc]

theorem nodupKeys_dset {α : Type} {l : List (String × α)} (hn : nodupKeys l)
    (k : String) (v : α) : nodupKeys (dset l k v) := by
  induction l with
  | nil => simp [dset, nodupKeys]
  | cons p rest ih =>
    simp only [nodupKeys, List.map_cons, List.nodup_cons] at hn
    by_cases hp : p.1 = k
    · subst hp
      simpa [dset, nodupKeys] using hn
    · have h2 := ih hn.2
      simp only [dset, if_neg hp, nodupKeys, List.map_cons, List.nodup_cons]
      refine ⟨fun hmem => ?_, h2⟩
      rcases (mem_keys_dset rest k p.1 v).mp hmem with h | h
      · exact hn.1 h
      · exact hp h

theorem classifyCurrent_eq_push (state : ExportState) (d : SyncDelta)
    (id : String) (v : Int) :
    classifyCurrent state d id v = pushBucket d (bucketOf state id v) id := by
  unfold classifyCurrent bucketOf
  cases dget state.pages id with
  | none => rfl
  | some ps =>
    by_cases h1 : ps.status = Status.deleted <;>
      by_cases h2 : v ≤ 0 <;>
      by_cases h3 : v > ps.version <;>
      by_cases h4 : isStale state ps <;>
      simp [h1, h2, h3, h4, pushBucket]

theorem bucketOf_ne_deleted (state : ExportState) (id : String) (v : Int) :
    bucketOf state id v ≠ Bucket.deleted := by
  unfold bucketOf
  cases dget state.pages id with
  | none => simp
  | some ps =>
    by_cases h1 : ps.status = Status.deleted <;>
      by_cases h2 : v ≤ 0 <;>
      by_cases h3 : v > ps.version <;>
      by_cases h4 : isStale state ps <;>
      simp [h1, h2, h3, h4]

theorem bucketIds_cons (state : ExportState) (p : String × Int)
    (rest : List (String × Int)) (b : Bucket) :
    bucketIds state (p :: rest) b =
      if bucketOf state p.1 p.2 = b then p.1 :: bucketIds state rest b
      else bucketIds state rest b := by
  by_cases h : bucketOf state p.1 p.2 = b <;>
    simp [bucketIds, List.filter_cons, h]

theorem firstLoop_eq (state : ExportState) (current : List (String × Int))
    (d : SyncDelta) :
    current.foldl (fun d p => classifyCurrent state d p.1 p.2) d =
      { new := d.new ++ bucketIds state current Bucket.new,
        modified := d.modified ++ bucketIds state current Bucket.modified,
        stale := d.stale ++ bucketIds state current Bucket.stale,
        deleted := d.deleted,
        unchanged := d.unchanged ++ bucketIds state current Bucket.unchanged } := by
  induction current generalizing d with
  | nil => simp [bucketIds]
  | cons p rest ih =>
    rw [List.foldl_cons, ih, classifyCurrent_eq_push]
    cases hb : bucketOf state p.1 p.2 <;>
      first
      | exact absurd hb (bucketOf_ne_deleted state p.1 p.2)
      | simp [pushBucket, bucketIds_cons, hb, List.append_assoc]

theorem secondLoop_eq (current : List (String × Int))
    (pages : List (String × PageState)) (d : SyncDelta) :
    pages.foldl (classifyStored current) d =
      { d with deleted := d.deleted ++ deletedIds pages current } := by
  induction pages generalizing d with
  | nil => simp [deletedIds]
  | cons p rest ih =>
    rw [List.foldl_cons, ih]
    by_cases h1 : p.2.status = Status.deleted
    · simp [classifyStored, h1, deletedIds, List.filter_cons]
    · by_cases h2 : dget current p.1 = none <;>
        simp [classifyStored, h1, h2, deletedIds, List.filter_cons]

/-- Master characterization of `compute_delta`: the loops of the code produce
exactly the filter-based buckets of the spec's classification rules. -/
theorem compute_delta_eq (state : ExportState)
    (current : List (String × Int)) :
    compute_delta state current =
      { new := bucketIds state current Bucket.new,
        modified := bucketIds state current Bucket.modified,
        stale := bucketIds state current Bucket.stale,
        deleted := deletedIds state.pages current,
        unchanged := bucketIds state current Bucket.unchanged } := by
  unfold compute_delta
  rw [firstLoop_eq, secondLoop_eq]
  simp

theorem mem_bucketIds_iff_of_nodup {state : ExportState}
    {current : List (String × Int)} {id : String} {v : Int} {b : Bucket}
    (hn : nodupKeys current) (hv : dget current id = some v) :
    id ∈ bucketIds state current b ↔ bucketOf state id v = b := by
  simp only [bucketIds, List.mem_map, List.mem_filter, decide_eq_true_eq]
  constructor
  · rintro ⟨p, ⟨hp, hb⟩, rfl⟩
    have : dget current p.1 = some p.2 := mem_dget_of_nodup hn (by simpa using hp)
    rw [hv] at this
    cases this
    exact hb
  · intro hb
    exact ⟨(id, v), ⟨dget_eq_some_mem hv, hb⟩, rfl⟩

theorem not_mem_bucketIds_of_absent {state : ExportState}
    {current : List (String × Int)} {id : String} {b : Bucket}
    (h : dget current id = none) : id ∉ bucketIds state current b := by
  intro hmem
  simp only [bucketIds, List.mem_map, List.mem_filter, decide_eq_true_eq] at hmem
  rcases hmem with ⟨p, ⟨hp, _⟩, rfl⟩
  have : p.1 ∈ current.map Prod.fst := List.mem_map.mpr ⟨p, hp, rfl⟩
  exact (dget_eq_none_iff.mp h) this

theorem mem_deletedIds_iff {pages : List (String × PageState)}
    {current : List (String × Int)} {id : String} (hn : nodupKeys pages) :
    id ∈ deletedIds pages current ↔
      ∃ ps, dget pages id = some ps ∧ ps.status ≠ Status.deleted ∧
        dget current id = none := by
  simp only [deletedIds, List.mem_map, List.mem_filter, decide_eq_true_eq]
  constructor
  · rintro ⟨p, ⟨hp, hcond⟩, rfl⟩
    exact ⟨p.2, mem_dget_of_nodup hn (by simpa using hp), hcond.1, hcond.2⟩
  · rintro ⟨ps, hget, hact, habs⟩
    exact ⟨(id, ps), ⟨dget_eq_some_mem hget, hact, habs⟩, rfl⟩

theorem not_mem_deletedIds_of_present {pages : List (String × PageState)}
    {current : List (String × Int)} {id : String} {v : Int}
    (h : dget current id = some v) : id ∉ deletedIds pages current := by
  intro hmem
  simp only [deletedIds, List.mem_map, List.mem_filter, decide_eq_true_eq] at hmem
  rcases hmem with ⟨p, ⟨_, _, habs⟩, rfl⟩
  rw [h] at habs
  cases habs

/-- C1: for every `ExportState` and version mapping, `compute_delta`
classifies each id of the mapping by the first matching rule: absent from
`state.pages` or tombstoned → new; current version ≤ 0 → modified; current
version strictly above the stored one → modified; min-export threshold set
and `last_exported` strictly before it → stale; otherwise unchanged
(`bucketOf` states this rule list; the theorem says the loop of
`compute_delta` realizes it). -/
theorem c1_compute_delta_classifies (state : ExportState)
    (current : List (String × Int)) (id : String) (v : Int)
    (hn : nodupKeys current) (hv : dget current id = some v) :
    (id ∈ (compute_delta state current).new ↔
      bucketOf state id v = Bucket.new) ∧
    (id ∈ (compute_delta state current).modified ↔
      bucketOf state id v = Bucket.modified) ∧
    (id ∈ (compute_delta state current).stale ↔
      bucketOf state id v = Bucket.stale) ∧
    (id ∈ (compute_delta state current).unchanged ↔
      bucketOf state id v = Bucket.unchanged) := by
  rw [compute_delta_eq]
  exact ⟨mem_bucketIds_iff_of_nodup hn hv, mem_bucketIds_iff_of_nodup hn hv,
    mem_bucketIds_iff_of_nodup hn hv, mem_bucketIds_iff_of_nodup hn hv⟩

/-- Witness for C1 at a concrete input: `p2` is stored at version 3 and
replayed at version 5, so it lands in `modified` and only there. -/
theorem c1_compute_delta_classifies_witness :
    nodupKeys exCurrent ∧ dget exCurrent "p2" = some 5 ∧
    (("p2" ∈ (compute_delta exState exCurrent).new ↔
      bucketOf exState "p2" 5 = Bucket.new) ∧
    ("p2" ∈ (compute_delta exState exCurrent).modified ↔
      bucketOf exState "p2" 5 = Bucket.modified) ∧
    ("p2" ∈ (compute_delta exState exCurrent).stale ↔
      bucketOf exState "p2" 5 = Bucket.stale) ∧
    ("p2" ∈ (compute_delta exState exCurrent).unchanged ↔
      bucketOf exState "p2" 5 = Bucket.unchanged)) :=
  ⟨by decide, by decide,
    c1_compute_delta_classifies exState exCurrent "p2" 5 (by decide)
      (by decide)⟩

/-- C4: every id appearing in `current_versions`, or active in
`state.pages`, lands in exactly one of the five buckets of
`compute_delta`; a tombstone absent from `current_versions` lands in no
bucket. -/
theorem c4_compute_delta_partitions (state : ExportState)
    (current : List (String × Int)) (id : String)
    (hnc : nodupKeys current) (hnp : nodupKeys state.pages) :
    ((∃ v, dget current id = some v) ∨
      (∃ ps, dget state.pages id = some ps ∧ ps.status ≠ Status.deleted) →
      ([( compute_delta state current).new,
        (compute_delta state current).modified,
        (compute_delta state current).stale,
        (compute_delta state current).deleted,
        (compute_delta state current).unchanged].countP
          (fun b => decide (id ∈ b)) = 1)) ∧
    (∀ ps, dget state.pages id = some ps → ps.status = Status.deleted →
      dget current id = none →
      ([( compute_delta state current).new,
        (compute_delta state current).modified,
        (compute_delta state current).stale,
        (compute_delta state current).deleted,
        (compute_delta state current).unchanged].countP
          (fun b => decide (id ∈ b)) = 0)) := by
  rw [compute_delta_eq]
  constructor
  · rintro (⟨v, hv⟩ | ⟨ps, hps, hact⟩)
    · have hmem := fun b =>
        (@mem_bucketIds_iff_of_nodup state current id v b hnc hv)
      have hdel : id ∉ deletedIds state.pages current :=
        not_mem_deletedIds_of_present hv
      cases hb : bucketOf state id v <;>
        first
        | exact absurd hb (bucketOf_ne_deleted state id v)
        | simp [List.countP_cons, hmem, hb, hdel]
    · by_cases hcur : dget current id = none
      · have hdel : id ∈ deletedIds state.pages current :=
          (mem_deletedIds_iff hnp).mpr ⟨ps, hps, hact, hcur⟩
        have habs := fun b =>
          @not_mem_bucketIds_of_absent state current id b hcur
        simp [List.countP_cons, hdel, habs]
      · rcases Option.ne_none_iff_exists'.mp hcur with ⟨v, hv⟩
        have hmem := fun b =>
          (@mem_bucketIds_iff_of_nodup state current id v b hnc hv)
        have hdel : id ∉ deletedIds state.pages current :=
          not_mem_deletedIds_of_present hv
        cases hb : bucketOf state id v <;>
          first
          | exact absurd hb (bucketOf_ne_deleted state id v)
          | simp [List.countP_cons, hmem, hb, hdel]
  · intro ps hps htomb hcur
    have habs := fun b =>
      @not_mem_bucketIds_of_absent state current id b hcur
    have hdel : id ∉ deletedIds state.pages current := by
      intro hmem
      rcases (mem_deletedIds_iff hnp).mp hmem with ⟨ps', hps', hact, _⟩
      rw [hps] at hps'
      cases hps'
      exact hact htomb
    simp [List.countP_cons, habs, hdel]

theorem mergeStep_other {m : String → Option Int} {p : String × Int}
    {k : String} (h : k ≠ p.1) : mergeStep m p k = m k := by
  unfold mergeStep
  cases m p.1 with
  | none => simp [h]
  | some e =>
    by_cases h1 : p.2 ≤ 0
    · simp [h1]
    · by_cases h2 : p.2 > e <;> simp [h1, h2, h]

theorem mergeStep_self_none {m : String → Option Int} {p : String × Int}
    (h : m p.1 = none) : mergeStep m p p.1 = some p.2 := by
  unfold mergeStep
  rw [h]
  simp

theorem mergeStep_self_some {m : String → Option Int} {p : String × Int}
    {e : Int} (h : m p.1 = some e) :
    mergeStep m p p.1 = some (if 0 < p.2 ∧ e < p.2 then p.2 else e) := by
  unfold mergeStep
  rw [h]
  by_cases h1 : p.2 ≤ 0
  · have hc : ¬(0 < p.2 ∧ e < p.2) := by omega
    simp [h1, hc, h]
  · by_cases h2 : p.2 > e
    · have hc : 0 < p.2 ∧ e < p.2 := by omega
      simp [h1, h2, hc]
    · have hc : ¬(0 < p.2 ∧ e < p.2) := by omega
      simp [h1, h2, hc, h]

theorem posFold_cons (e v : Int) (vs : List Int) :
    posFold e (v :: vs) = posFold (if 0 < v ∧ e < v then v else e) vs := rfl

theorem le_posFold (e : Int) (l : List Int) : e ≤ posFold e l := by
  induction l generalizing e with
  | nil => simp [posFold]
  | cons v vs ih =>
    rw [posFold_cons]
    refine le_trans ?_ (ih _)
    split <;> omega

theorem mem_le_posFold {l : List Int} {u : Int} (hu : u ∈ l) (hpos : 0 < u)
    (e : Int) : u ≤ posFold e l := by
  induction l generalizing e with
  | nil => cases hu
  | cons v vs ih =>
    rw [posFold_cons]
    rcases List.mem_cons.mp hu with h | h
    · subst h
      refine le_trans ?_ (le_posFold _ _)
      split <;> omega
    · exact ih h _

theorem posFold_mem (e : Int) (l : List Int) :
    posFold e l = e ∨ (posFold e l ∈ l ∧ 0 < posFold e l) := by
  induction l generalizing e with
  | nil => left; rfl
  | cons v vs ih =>
    rw [posFold_cons]
    rcases ih (if 0 < v ∧ e < v then v else e) with h | h
    · by_cases hc : 0 < v ∧ e < v
      · right
        rw [h, if_pos hc]
        exact ⟨List.mem_cons_self v vs, hc.1⟩
      · left
        rw [h, if_neg hc]
    · right
      exact ⟨List.mem_cons_of_mem _ h.1, h.2⟩

/-- Characterization of the merge loop restricted to one id: the result is
the positive-max fold over the versions recorded for that id, seeded by the
pre-existing entry or by the first recorded version. -/
theorem mergeFold_char (pairs : List (String × Int))
    (m : String → Option Int) (id : String) :
    pairs.foldl mergeStep m id =
      match m id, occVals pairs id with
      | some e, l => some (posFold e l)
      | none, [] => none
      | none, v :: vs => some (posFold v vs) := by
  induction pairs generalizing m with
  | nil => cases hm : m id <;> simp [hm, occVals, posFold]
  | cons p rest ih =>
    rw [List.foldl_cons, ih]
    by_cases hp : p.1 = id
    · subst hp
      have hocc : occVals (p :: rest) p.1 = p.2 :: occVals rest p.1 := by
        simp [occVals, List.filter_cons]
      cases hm : m p.1 with
      | none =>
        rw [mergeStep_self_none hm, hocc]
      | some e =>
        rw [mergeStep_self_some hm, hocc]
        cases occVals rest p.1 <;> simp [posFold_cons]
    · have hne : id ≠ p.1 := fun he => hp he.symm
      have hocc : occVals (p :: rest) id = occVals rest id := by
        simp [occVals, List.filter_cons, hp]
      rw [mergeStep_other hne, hocc]

theorem replayFold_eq (env : ReplayEnv) (scopes : List ScopeEntry)
    (m : String → Option Int) :
    scopes.foldl
      (fun merged scope =>
        match scopeResult env scope with
        | none => merged
        | some pages => pages.foldl mergeStep merged) m =
    (scopes.filterMap (scopeResult env)).foldl
      (fun merged pairs => pairs.foldl mergeStep merged) m := by
  induction scopes generalizing m with
  | nil => rfl
  | cons s rest ih =>
    cases hs : scopeResult env s <;>
      simp [List.filterMap_cons, hs, ih]

/-- C3: the merge performed by `replay_scopes` keeps, per id, the maximum
positive version observed across all scope maps; a sentinel (≤ 0) never
overwrites an already-recorded entry; a positive version always overwrites
a recorded sentinel; and `replay_scopes` is exactly this merge over the
version maps of its recognized scopes. -/
theorem c3_merge_rule :
    (∀ (maps : List (List (String × Int))) (id : String),
      posVals maps.flatten id ≠ [] →
      ∃ x, mergeScopeMaps maps id = some x ∧ x ∈ posVals maps.flatten id ∧
        ∀ u ∈ posVals maps.flatten id, u ≤ x) ∧
    (∀ (m : String → Option Int) (p : String × Int),
      p.2 ≤ 0 → (m p.1).isSome → mergeStep m p = m) ∧
    (∀ (m : String → Option Int) (p : String × Int) (e : Int),
      m p.1 = some e → e ≤ 0 → 0 < p.2 → mergeStep m p p.1 = some p.2) ∧
    (∀ (env : ReplayEnv) (state : ExportState),
      replay_scopes env state =
        mergeScopeMaps (state.scopes.filterMap (scopeResult env))) := by
  refine ⟨?_, ?_, ?_, ?_⟩
  · intro maps id hpos
    have hchar := mergeFold_char maps.flatten (fun _ => none) id
    have hmerge : mergeScopeMaps maps id = maps.flatten.foldl mergeStep
        (fun _ => none) id := by
      unfold mergeScopeMaps
      rw [List.foldl_flatten]
    rcases List.exists_mem_of_ne_nil _ hpos with ⟨u, hu⟩
    have hu' : u ∈ occVals maps.flatten id ∧ 0 < u := by
      simpa [posVals, List.mem_filter] using hu
    cases hocc : occVals maps.flatten id with
    | nil => rw [hocc] at hu'; cases hu'.1
    | cons v vs =>
      refine ⟨posFold v vs, ?_, ?_, ?_⟩
      · rw [hmerge, hchar, hocc]
      · have hx : posFold v vs ∈ v :: vs := by
          rcases posFold_mem v vs with h | h
          · rw [h]; exact List.mem_cons_self v vs
          · exact List.mem_cons_of_mem _ h.1
        have hxpos : 0 < posFold v vs := by
          rw [hocc] at hu'
          rcases List.mem_cons.mp hu'.1 with h | h
          · have := le_posFold v vs
            omega
          · have := mem_le_posFold h hu'.2 v
            omega
        simp only [posVals, List.mem_filter, decide_eq_true_eq, hocc]
        exact ⟨hx, hxpos⟩
      · intro w hw
        simp only [posVals, List.mem_filter, decide_eq_true_eq, hocc] at hw
        rcases List.mem_cons.mp hw.1 with h | h
        · rw [h] at hw ⊢
          exact le_posFold v vs
        · exact mem_le_posFold h hw.2 v
  · intro m p hle hsome
    rcases Option.isSome_iff_exists.mp hsome with ⟨e, he⟩
    unfold mergeStep
    rw [he]
    simp [hle]
  · intro m p e he hsent hpos
    rw [mergeStep_self_some he]
    have hc : 0 < p.2 ∧ e < p.2 := by omega
    rw [if_pos hc]
  · intro env state
    unfold replay_scopes mergeScopeMaps
    exact replayFold_eq env state.scopes _

/-- Witness for C3 at concrete inputs: merging the maps
`[[(a,2)], [(a,5),(b,0)], [(a,0)]]` keeps the maximum positive version 5
for `a`; a sentinel does not overwrite a recorded 5; a positive 4
overwrites a recorded sentinel. -/
theorem c3_merge_rule_witness :
    (posVals ex3Maps.flatten "a" ≠ [] ∧
      ∃ x, mergeScopeMaps ex3Maps "a" = some x ∧
        x ∈ posVals ex3Maps.flatten "a" ∧
        ∀ u ∈ posVals ex3Maps.flatten "a", u ≤ x) ∧
    ((0 : Int) ≤ 0 ∧
      mergeStep (fun k => if k = "a" then some 5 else none) ("a", 0) =
        (fun k => if k = "a" then some 5 else none)) ∧
    ((fun k => if k = "a" then some (0 : Int) else none) "a" = some 0 ∧
      mergeStep (fun k => if k = "a" then some 0 else none) ("a", 4) "a" =
        some 4) :=
  ⟨⟨by decide, c3_merge_rule.1 ex3Maps "a" (by decide)⟩,
   ⟨le_refl 0,
    c3_merge_rule.2.1 (fun k => if k = "a" then some 5 else none) ("a", 0)
      (by decide) (by simp)⟩,
   ⟨by simp,
    c3_merge_rule.2.2.1 (fun k => if k = "a" then some 0 else none) ("a", 4)
      0 (by simp) (by decide) (by decide)⟩⟩

/-- Witness for C4 at a concrete input: the new page `p1` lands in exactly
one bucket. -/
theorem c4_compute_delta_partitions_witness :
    nodupKeys exCurrent ∧ nodupKeys exState.pages ∧
    ((∃ v, dget exCurrent "p1" = some v) ∨
      (∃ ps, dget exState.pages "p1" = some ps ∧
        ps.status ≠ Status.deleted)) ∧
    ([(compute_delta exState exCurrent).new,
      (compute_delta exState exCurrent).modified,
      (compute_delta exState exCurrent).stale,
      (compute_delta exState exCurrent).deleted,
      (compute_delta exState exCurrent).unchanged].countP
        (fun b => decide ("p1" ∈ b)) = 1) :=
  ⟨by decide, by decide, Or.inl ⟨1, by decide⟩,
    (c4_compute_delta_partitions exState exCurrent "p1" (by decide)
      (by decide)).1 (Or.inl ⟨1, by decide⟩)⟩

theorem scopeResult_isSome_iff (env : ReplayEnv) (sc : ScopeEntry) :
    (scopeResult env sc).isSome = recognizedCommand sc.command := by
  by_cases h1 : sc.command = "spaces" <;>
    by_cases h2 : sc.command = "all-spaces" <;>
    by_cases h3 : sc.command = "pages" <;>
    by_cases h4 : sc.command = "pages-with-descendants" <;>
    simp [scopeResult, recognizedCommand, h1, h2, h3, h4]

theorem filterMap_scopeResult_filter (env : ReplayEnv)
    (scopes : List ScopeEntry) :
    (scopes.filter (fun sc => recognizedCommand sc.command)).filterMap
        (scopeResult env) =
      scopes.filterMap (scopeResult env) := by
  induction scopes with
  | nil => rfl
  | cons s rest ih =>
    by_cases hrec : recognizedCommand s.command
    · cases hs : scopeResult env s with
      | none =>
        have h := scopeResult_isSome_iff env s
        rw [hs, hrec] at h
        cases h
      | some pages =>
        simp [List.filter_cons, hrec, List.filterMap_cons, hs, ih]
    · have hs : scopeResult env s = none := by
        cases hs' : scopeResult env s with
        | none => rfl
        | some pages =>
          have h := scopeResult_isSome_iff env s
          rw [hs'] at h
          rw [← h] at hrec
          cases hrec rfl
      simp [List.filter_cons, hrec, List.filterMap_cons, hs, ih]

/-- C10: a scope whose command is not one of the four recognized strings is
skipped by `replay_scopes` without raising and contributes no entries: the
result equals the replay of only the recognized scopes. -/
theorem c10_unknown_scope_skipped (env : ReplayEnv) (state : ExportState) :
    replay_scopes env state =
      replay_scopes env
        { state with
          scopes := state.scopes.filter
            (fun sc => recognizedCommand sc.command) } := by
  unfold replay_scopes
  rw [replayFold_eq, replayFold_eq]
  simp only
  rw [filterMap_scopeResult_filter]

/-- C2 exhibits the scope-dispatch mismatch: states recorded by the CLI
commands `pages_with_descendants` and `all_spaces` (underscored command
strings, main.py lines 162 and 247) are skipped entirely by
`replay_scopes`, which recognizes only the hyphenated spellings
(sync.py lines 167 and 171), so replay returns the empty mapping although
the scopes' version maps are nonempty. -/
theorem c2_cli_scopes_not_replayed :
    replay_scopes bugReplayEnv bugStatePwd "401" = none ∧
    replay_scopes bugReplayEnv bugStatePwd "402" = none ∧
    replay_scopes bugReplayEnv bugStateAll "601" = none ∧
    bugReplayEnv.pagesWithDescendantsPages ["401"] =
      [("401", 3), ("402", 1)] ∧
    bugReplayEnv.allSpacesPages = [("601", 2)] ∧
    recognizedCommand cliPagesWithDescendantsCommand = false ∧
    recognizedCommand cliAllSpacesCommand = false := by
  refine ⟨?_, ?_, ?_, rfl, rfl, by decide, by decide⟩ <;> decide

/-- C5: when `save_state` fails at any point, the canonical state file is
untouched, no temp artifact remains, and the error propagates; on success
the canonical file holds exactly the serialized state and the temp file is
gone. -/
theorem c5_save_state_crash_safe (fs : Fs) (tmp : String)
    (state : ExportState) (fp : FailPoint)
    (htmp : tmp ≠ stateFilename) (hfresh : fs tmp = none) :
    (∀ fs', save_state fs tmp state fp = SaveOutcome.err fs' →
      fs' stateFilename = fs stateFilename ∧ fs' tmp = none) ∧
    (fp ≠ FailPoint.noFail →
      ∃ fs', save_state fs tmp state fp = SaveOutcome.err fs') ∧
    (∀ fs', save_state fs tmp state fp = SaveOutcome.ok fs' →
      fp = FailPoint.noFail ∧
      fs' stateFilename = some (encodeExportState state) ∧
      fs' tmp = none) := by
  have h2 : ¬(stateFilename = tmp) := fun h => htmp h.symm
  refine ⟨?_, ?_, ?_⟩
  · intro fs' h
    cases fp with
    | noFail => simp [save_state] at h
    | atCreate =>
      simp only [save_state, SaveOutcome.err.injEq] at h
      subst h
      exact ⟨rfl, hfresh⟩
    | atWrite =>
      simp only [save_state, SaveOutcome.err.injEq] at h
      subst h
      exact ⟨by simp [fsSet, h2], by simp [fsSet]⟩
    | atReplace =>
      simp only [save_state, SaveOutcome.err.injEq] at h
      subst h
      exact ⟨by simp [fsSet, h2], by simp [fsSet]⟩
  · intro hne
    cases fp with
    | noFail => exact absurd rfl hne
    | atCreate => exact ⟨_, rfl⟩
    | atWrite => exact ⟨_, rfl⟩
    | atReplace => exact ⟨_, rfl⟩
  · intro fs' h
    cases fp with
    | noFail =>
      simp only [save_state, SaveOutcome.ok.injEq] at h
      subst h
      exact ⟨rfl, by simp [fsSet, h2], by simp [fsSet]⟩
    | atCreate => simp [save_state] at h
    | atWrite => simp [save_state] at h
    | atReplace => simp [save_state] at h

/-- Witness for C5: a write failure in an empty directory leaves the
canonical file absent and removes the temp file. -/
theorem c5_save_state_crash_safe_witness :
    exTmp ≠ stateFilename ∧ exFsEmpty exTmp = none ∧
    ((∀ fs', save_state exFsEmpty exTmp exState FailPoint.atWrite =
        SaveOutcome.err fs' →
      fs' stateFilename = exFsEmpty stateFilename ∧ fs' exTmp = none) ∧
    (FailPoint.atWrite ≠ FailPoint.noFail →
      ∃ fs', save_state exFsEmpty exTmp exState FailPoint.atWrite =
        SaveOutcome.err fs') ∧
    (∀ fs', save_state exFsEmpty exTmp exState FailPoint.atWrite =
        SaveOutcome.ok fs' →
      FailPoint.atWrite = FailPoint.noFail ∧
      fs' stateFilename = some (encodeExportState exState) ∧
      fs' exTmp = none)) :=
  ⟨by decide, rfl,
    c5_save_state_crash_safe exFsEmpty exTmp exState FailPoint.atWrite
      (by decide) rfl⟩

theorem decodeStatus_encodeStatus (s : Status) :
    decodeStatus (encodeStatus s) = some s := by
  cases s <;> rfl

theorem decodePageState_encodePageState (ps : PageState) :
    decodePageState (encodePageState ps) = some ps := by
  cases ps with
  | mk v t p s => cases s <;> rfl

theorem decodeStrings_map (l : List String) :
    decodeStrings (l.map Json.str) = some l := by
  induction l with
  | nil => rfl
  | cons s rest ih => simp [decodeStrings, ih]

theorem decodeScopeEntry_encodeScopeEntry (sc : ScopeEntry) :
    decodeScopeEntry (encodeScopeEntry sc) = some sc := by
  cases sc with
  | mk c args =>
    simp [encodeScopeEntry, decodeScopeEntry, dget, decodeStrings_map]

theorem decodeScopes_map (l : List ScopeEntry) :
    decodeScopes (l.map encodeScopeEntry) = some l := by
  induction l with
  | nil => rfl
  | cons sc rest ih =>
    simp [decodeScopes, decodeScopeEntry_encodeScopeEntry, ih]

theorem decodePages_map (l : List (String × PageState)) :
    decodePages (l.map (fun p => (p.1, encodePageState p.2))) = some l := by
  induction l with
  | nil => rfl
  | cons p rest ih =>
    simp [decodePages, decodePageState_encodePageState, ih]

theorem decodeOptTimestamp_encodeOptTimestamp (t : Option Int) :
    decodeOptTimestamp (encodeOptTimestamp t) = some t := by
  cases t <;> rfl

theorem decodeExportState_encodeExportState (s : ExportState) :
    decodeExportState (encodeExportState s) = some s := by
  cases s with
  | mk sv u scopes mts pages =>
    simp [encodeExportState, decodeExportState, dget, decodeScopes_map,
      decodeOptTimestamp_encodeOptTimestamp, decodePages_map]

/-- C6: saving a state and loading it back from the same directory returns
a state equal to the original in every field. -/
theorem c6_save_load_round_trip (fs : Fs) (tmp : String)
    (state : ExportState) (htmp : tmp ≠ stateFilename) :
    ∃ fs', save_state fs tmp state FailPoint.noFail = SaveOutcome.ok fs' ∧
      load_state fs' = LoadResult.ok state := by
  refine ⟨_, rfl, ?_⟩
  have h2 : ¬(stateFilename = tmp) := fun h => htmp h.symm
  unfold load_state
  simp [save_state, fsSet, h2, decodeExportState_encodeExportState]

/-- Witness for C6 at a populated state with nested page records, scopes
and a force threshold. -/
theorem c6_save_load_round_trip_witness :
    exTmp ≠ stateFilename ∧
    ∃ fs', save_state exFsEmpty exTmp exRichState FailPoint.noFail =
        SaveOutcome.ok fs' ∧
      load_state fs' = LoadResult.ok exRichState :=
  ⟨by decide,
    c6_save_load_round_trip exFsEmpty exTmp exRichState (by decide)⟩

/-- C8: when a deleted page's recorded path resolves outside the output
tree, no file is removed, a warning is surfaced, yet the record is still
marked deleted and state is persisted (never fatal); when it resolves
inside and the file exists, the file is removed and the record is likewise
marked deleted and persisted.  `execute_sync` processes each id of the
deleted bucket with exactly this step. -/
theorem c8_deletion_path_guard (env : ExecEnv) (acc : ExecAcc) (id : String)
    (ps : PageState) (hps : dget acc.state.pages id = some ps) :
    (env.resolveInside ps.output_path = false →
      (deleteOne env acc id).files = acc.files ∧
      (deleteOne env acc id).warnings = acc.warnings ++ [ps.output_path] ∧
      dget (deleteOne env acc id).state.pages id =
        some { ps with status := Status.deleted } ∧
      (deleteOne env acc id).saved =
        acc.saved ++ [(deleteOne env acc id).state]) ∧
    (env.resolveInside ps.output_path = true →
      acc.files ps.output_path = true →
      (deleteOne env acc id).files ps.output_path = false ∧
      (∀ p, p ≠ ps.output_path →
        (deleteOne env acc id).files p = acc.files p) ∧
      (deleteOne env acc id).warnings = acc.warnings ∧
      dget (deleteOne env acc id).state.pages id =
        some { ps with status := Status.deleted } ∧
      (deleteOne env acc id).saved =
        acc.saved ++ [(deleteOne env acc id).state]) ∧
    (∀ (files : String → Bool) (st : ExportState) (delta : SyncDelta),
      execute_sync env files st delta false =
        delta.deleted.foldl (deleteOne env)
          ((delta.new ++ delta.modified ++ delta.stale).foldl
            (exportOne env) ⟨files, st, [], []⟩)) := by
  refine ⟨?_, ?_, fun files st delta => rfl⟩
  · intro hout
    refine ⟨?_, ?_, ?_, ?_⟩ <;>
      simp [deleteOne, hps, hout, dget_dset_self]
  · intro hin hex
    refine ⟨?_, fun p hp => ?_, ?_, ?_, ?_⟩
    · simp [deleteOne, hps, hin, hex]
    · simp [deleteOne, hps, hin, hex, hp]
    · simp [deleteOne, hps, hin]
    · simp [deleteOne, hps, dget_dset_self]
    · simp [deleteOne, hps]

/-- Witness for C8: the record whose stored path is `../../etc/passwd`
escapes the output tree — nothing is deleted, a warning is recorded, the
record is tombstoned and state persisted. -/
theorem c8_deletion_path_guard_witness :
    dget ex8Acc.state.pages "8" =
      some ⟨1, 5, "../../etc/passwd", Status.active⟩ ∧
    ex8Env.resolveInside "../../etc/passwd" = false ∧
    ((deleteOne ex8Env ex8Acc "8").files = ex8Acc.files ∧
     (deleteOne ex8Env ex8Acc "8").warnings =
       ex8Acc.warnings ++ ["../../etc/passwd"] ∧
     dget (deleteOne ex8Env ex8Acc "8").state.pages "8" =
       some ⟨1, 5, "../../etc/passwd", Status.deleted⟩ ∧
     (deleteOne ex8Env ex8Acc "8").saved =
       ex8Acc.saved ++ [(deleteOne ex8Env ex8Acc "8").state]) :=
  ⟨by decide, by decide,
    (c8_deletion_path_guard ex8Env ex8Acc "8"
      ⟨1, 5, "../../etc/passwd", Status.active⟩ (by decide)).1 (by decide)⟩

theorem foldl_append_lines (f : String → String) (l : List String)
    (ls : List String) :
    l.foldl (fun ls id => ls ++ [f id]) ls = ls ++ l.map f := by
  induction l generalizing ls with
  | nil => simp
  | cons x xs ih => simp [ih, List.append_assoc]

theorem bucketOf_eq_new_of_none {state : ExportState} {id : String}
    (v : Int) (h : dget state.pages id = none) :
    bucketOf state id v = Bucket.new := by
  unfold bucketOf
  rw [h]

/-- C9 counterexample: for a new page that state does not know, the report
line reads `page 12345`, not `entity 12345` as the claim's fallback-label
wording states. -/
theorem c9_entity_label_counterexample :
    format_sync_report c9Delta c9State =
      "  new:  page 12345\n1 new, 0 modified, 0 deleted, 0 unchanged" ∧
    dget c9State.pages "12345" = none ∧
    pageLabel c9State "12345" = "page 12345" ∧
    pageLabel c9State "12345" ≠ "entity 12345" := by
  refine ⟨by decide, by decide, by decide, by decide⟩

/-- C9 (amended): the report has one line per changed entity grouped
new → modified → stale → deleted, each showing the stored relative output
path with the fallback label `page <id>` used exactly when the id is not
in state — which for deltas produced by `compute_delta` can only happen in
the new bucket — and the comma-joined summary omits the stale segment
exactly when the stale count is zero (the conditional segment is part of
`reportSpec`). -/
theorem c9_report_structure :
    (∀ (delta : SyncDelta) (state : ExportState),
      format_sync_report delta state = reportSpec delta state) ∧
    (∀ (state : ExportState) (current : List (String × Int)) (id : String),
      (id ∈ (compute_delta state current).modified ∨
       id ∈ (compute_delta state current).stale ∨
       id ∈ (compute_delta state current).deleted) →
      dget state.pages id ≠ none) ∧
    (∀ (state : ExportState) (id : String), dget state.pages id = none →
      pageLabel state id = "page " ++ id) ∧
    (∀ (state : ExportState) (id : String) (ps : PageState),
      dget state.pages id = some ps →
      pageLabel state id = ps.output_path) := by
  refine ⟨?_, ?_, ?_, ?_⟩
  · intro delta state
    unfold format_sync_report reportSpec
    simp only [foldl_append_lines]
    by_cases hs : delta.stale.length ≠ 0 <;>
      simp [hs, List.append_assoc]
  · intro state current id hmem hnone
    rw [compute_delta_eq] at hmem
    rcases hmem with h | h | h
    · simp only [bucketIds, List.mem_map, List.mem_filter,
        decide_eq_true_eq] at h
      rcases h with ⟨p, ⟨_, hb⟩, rfl⟩
      rw [bucketOf_eq_new_of_none p.2 hnone] at hb
      cases hb
    · simp only [bucketIds, List.mem_map, List.mem_filter,
        decide_eq_true_eq] at h
      rcases h with ⟨p, ⟨_, hb⟩, rfl⟩
      rw [bucketOf_eq_new_of_none p.2 hnone] at hb
      cases hb
    · simp only [deletedIds, List.mem_map, List.mem_filter,
        decide_eq_true_eq] at h
      rcases h with ⟨p, ⟨hp, _⟩, rfl⟩
      exact (dget_eq_none_iff.mp hnone) (List.mem_map.mpr ⟨p, hp, rfl⟩)
  · intro state id h
    unfold pageLabel
    rw [h]
  · intro state id ps h
    unfold pageLabel
    rw [h]

/-- Witness for C9: the report of the concrete delta agrees with the
spec-shaped report; the modified page `p2` is necessarily in state; a page
absent from state gets the fallback label. -/
theorem c9_report_structure_witness :
    format_sync_report c9Delta c9State = reportSpec c9Delta c9State ∧
    ("p2" ∈ (compute_delta exState exCurrent).modified ∨
     "p2" ∈ (compute_delta exState exCurrent).stale ∨
     "p2" ∈ (compute_delta exState exCurrent).deleted) ∧
    dget exState.pages "p2" ≠ none ∧
    dget c9State.pages "12345" = none ∧
    pageLabel c9State "12345" = "page " ++ "12345" ∧
    dget exState.pages "p2" = some exPage ∧
    pageLabel exState "p2" = exPage.output_path :=
  ⟨c9_report_structure.1 c9Delta c9State,
   Or.inl (by decide),
   c9_report_structure.2.1 exState exCurrent "p2" (Or.inl (by decide)),
   by decide,
   c9_report_structure.2.2.1 c9State "12345" (by decide),
   by decide,
   c9_report_structure.2.2.2 exState "p2" exPage (by decide)⟩

theorem exportOne_min_ts (env : ExecEnv) (acc : ExecAcc) (id : String) :
    (exportOne env acc id).state.min_export_timestamp =
      acc.state.min_export_timestamp := by
  unfold exportOne update_page_state
  split <;> rfl

theorem exportFold_min_ts (env : ExecEnv) (ids : List String)
    (acc : ExecAcc) :
    (ids.foldl (exportOne env) acc).state.min_export_timestamp =
      acc.state.min_export_timestamp := by
  induction ids generalizing acc with
  | nil => rfl
  | cons i rest ih => rw [List.foldl_cons, ih, exportOne_min_ts]

theorem deleteOne_min_ts (env : ExecEnv) (acc : ExecAcc) (id : String) :
    (deleteOne env acc id).state.min_export_timestamp =
      acc.state.min_export_timestamp := by
  unfold deleteOne
  cases dget acc.state.pages id <;> rfl

theorem deleteFold_min_ts (env : ExecEnv) (dels : List String)
    (acc : ExecAcc) :
    (dels.foldl (deleteOne env) acc).state.min_export_timestamp =
      acc.state.min_export_timestamp := by
  induction dels generalizing acc with
  | nil => rfl
  | cons i rest ih => rw [List.foldl_cons, ih, deleteOne_min_ts]

theorem exportOne_pages_get (env : ExecEnv) (acc : ExecAcc) (i k : String) :
    dget (exportOne env acc i).state.pages k =
      if k = i ∧ env.fetchAccessible i = true then
        some ⟨env.fetchVersion i, env.exportTime i, env.fetchPath i,
          Status.active⟩
      else dget acc.state.pages k := by
  unfold exportOne update_page_state
  by_cases hacc : env.fetchAccessible i = true
  · rw [if_pos hacc]
    by_cases hk : k = i
    · subst hk
      rw [if_pos ⟨rfl, hacc⟩]
      exact dget_dset_self _ _ _
    · rw [if_neg (fun hand => hk hand.1)]
      exact dget_dset_other _ _ (fun he => hk he.symm)
  · rw [if_neg hacc, if_neg (fun hand => hacc hand.2)]

theorem exportFold_pages_get (env : ExecEnv) (ids : List String)
    (acc : ExecAcc) (k : String) :
    dget (ids.foldl (exportOne env) acc).state.pages k =
      if k ∈ ids ∧ env.fetchAccessible k = true then
        some ⟨env.fetchVersion k, env.exportTime k, env.fetchPath k,
          Status.active⟩
      else dget acc.state.pages k := by
  induction ids generalizing acc with
  | nil => simp
  | cons i rest ih =>
    rw [List.foldl_cons, ih, exportOne_pages_get]
    by_cases hmem : k ∈ rest ∧ env.fetchAccessible k = true
    · rw [if_pos hmem, if_pos ⟨List.mem_cons_of_mem _ hmem.1, hmem.2⟩]
    · rw [if_neg hmem]
      by_cases hk : k = i ∧ env.fetchAccessible i = true
      · obtain ⟨rfl, hacci⟩ := hk
        rw [if_pos ⟨rfl, hacci⟩, if_pos ⟨List.mem_cons_self _ _, hacci⟩]
      · rw [if_neg hk]
        have hout : ¬(k ∈ i :: rest ∧ env.fetchAccessible k = true) := by
          rintro ⟨hmem', hacck⟩
          rcases List.mem_cons.mp hmem' with h | h
          · exact hk ⟨h, h ▸ hacck⟩
          · exact hmem ⟨h, hacck⟩
        rw [if_neg hout]

theorem deleteOne_pages_get (env : ExecEnv) (acc : ExecAcc) (i k : String) :
    dget (deleteOne env acc i).state.pages k =
      if k = i then
        (match dget acc.state.pages k with
         | some ps => some { ps with status := Status.deleted }
         | none => none)
      else dget acc.state.pages k := by
  unfold deleteOne
  cases hps : dget acc.state.pages i with
  | none =>
    by_cases hk : k = i
    · subst hk
      simp [hps]
    · simp [hk]
  | some ps =>
    by_cases hk : k = i
    · subst hk
      simp [hps, dget_dset_self]
    · simp [hk, dget_dset_other _ _ (fun he => hk he.symm)]

theorem deleteFold_pages_get (env : ExecEnv) (dels : List String)
    (acc : ExecAcc) (k : String) :
    dget (dels.foldl (deleteOne env) acc).state.pages k =
      if k ∈ dels then
        (match dget acc.state.pages k with
         | some ps => some { ps with status := Status.deleted }
         | none => none)
      else dget acc.state.pages k := by
  induction dels generalizing acc with
  | nil => simp
  | cons i rest ih =>
    rw [List.foldl_cons, ih, deleteOne_pages_get]
    by_cases hmem : k ∈ rest
    · rw [if_pos hmem, if_pos (List.mem_cons_of_mem _ hmem)]
      by_cases hk : k = i
      · rw [if_pos hk]
        cases hv : dget acc.state.pages k <;> simp
      · rw [if_neg hk]
    · rw [if_neg hmem]
      by_cases hk : k = i
      · rw [if_pos hk, if_pos (List.mem_cons.mpr (Or.inl hk))]
      · rw [if_neg hk,
          if_neg (fun hm => (List.mem_cons.mp hm).elim hk hmem)]

theorem exportOne_nodup (env : ExecEnv) (acc : ExecAcc) (i : String)
    (hn : nodupKeys acc.state.pages) :
    nodupKeys (exportOne env acc i).state.pages := by
  unfold exportOne update_page_state
  split
  · exact nodupKeys_dset hn _ _
  · exact hn

theorem exportFold_nodup (env : ExecEnv) (ids : List String) (acc : ExecAcc)
    (hn : nodupKeys acc.state.pages) :
    nodupKeys ((ids.foldl (exportOne env) acc).state.pages) := by
  induction ids generalizing acc with
  | nil => exact hn
  | cons i rest ih => exact ih _ (exportOne_nodup env acc i hn)

theorem deleteOne_nodup (env : ExecEnv) (acc : ExecAcc) (i : String)
    (hn : nodupKeys acc.state.pages) :
    nodupKeys (deleteOne env acc i).state.pages := by
  unfold deleteOne
  cases dget acc.state.pages i with
  | none => exact hn
  | some ps => exact nodupKeys_dset hn _ _

theorem deleteFold_nodup (env : ExecEnv) (dels : List String)
    (acc : ExecAcc) (hn : nodupKeys acc.state.pages) :
    nodupKeys ((dels.foldl (deleteOne env) acc).state.pages) := by
  induction dels generalizing acc with
  | nil => exact hn
  | cons i rest ih => exact ih _ (deleteOne_nodup env acc i hn)

theorem bucketOf_congr {s1 s2 : ExportState} (id : String) (v : Int)
    (hp : dget s1.pages id = dget s2.pages id)
    (ht : s1.min_export_timestamp = s2.min_export_timestamp) :
    bucketOf s1 id v = bucketOf s2 id v := by
  unfold bucketOf isStale
  rw [hp, ht]

theorem bucketOf_active_rec (state : ExportState) (id : String) (v : Int)
    (ps : PageState) (hget : dget state.pages id = some ps)
    (hact : ps.status ≠ Status.deleted) (hpos : 0 < v)
    (hver : ¬v > ps.version) (hstale : isStale state ps = false) :
    bucketOf state id v = Bucket.unchanged := by
  have h0 : ¬v ≤ 0 := by omega
  unfold bucketOf
  rw [hget]
  simp [hact, h0, hver, hstale]

/-- C7 counterexample: with the sentinel mapping `{p1: 0}` replayed
identically on both runs (a transient fetch error persisting across runs),
the second delta still classifies `p1` as modified, not unchanged, even
though the first run exported it and recorded the real version. -/
theorem c7_sentinel_counterexample :
    (compute_delta c7State c7Current).modified = ["p1"] ∧
    (compute_delta
      (execute_sync c7Env (fun _ => false) c7State
        (compute_delta c7State c7Current) false).state c7Current).modified =
      ["p1"] ∧
    (compute_delta
      (execute_sync c7Env (fun _ => false) c7State
        (compute_delta c7State c7Current) false).state
      c7Current).unchanged = [] := by
  refine ⟨by decide, by decide, by decide⟩

/-- C7 (amended): running sync twice with no remote changes — the replayed
mapping is identical on both runs, export fetches return the replayed
versions, all pages are accessible, every replayed version is positive (no
sentinel entries), and exports happen no earlier than any set min-export
threshold — yields on the second run a delta with every entity unchanged
and the four other buckets empty. -/
theorem c7_sync_idempotent (env : ExecEnv) (files : String → Bool)
    (state : ExportState) (current : List (String × Int))
    (hnc : nodupKeys current) (hnp : nodupKeys state.pages)
    (hpos : ∀ p ∈ current, 0 < p.2)
    (hfetch : ∀ p ∈ current, env.fetchVersion p.1 = p.2)
    (hacc : ∀ p ∈ current, env.fetchAccessible p.1 = true)
    (hnow : ∀ t, state.min_export_timestamp = some t →
      ∀ id, t ≤ env.exportTime id) :
    compute_delta
      (execute_sync env files state (compute_delta state current)
        false).state current =
      { new := [], modified := [], stale := [], deleted := [],
        unchanged := current.map Prod.fst } := by
  set delta := compute_delta state current with hdelta
  set E := delta.new ++ delta.modified ++ delta.stale with hE
  set acc0 : ExecAcc := ⟨files, state, [], []⟩ with hacc0
  set acc1 := E.foldl (exportOne env) acc0 with hacc1
  set accF := delta.deleted.foldl (deleteOne env) acc1 with haccF
  have hexec : execute_sync env files state delta false = accF := by
    rw [haccF, hacc1, hacc0, hE]
    rfl
  have hmt1 : accF.state.min_export_timestamp =
      state.min_export_timestamp := by
    rw [haccF, deleteFold_min_ts, hacc1, exportFold_min_ts]
  have hdel_eq : delta.deleted = deletedIds state.pages current := by
    rw [hdelta, compute_delta_eq]
  have hEmem : ∀ id, id ∈ E ↔
      (id ∈ bucketIds state current Bucket.new ∨
       id ∈ bucketIds state current Bucket.modified ∨
       id ∈ bucketIds state current Bucket.stale) := by
    intro id
    rw [hE, hdelta, compute_delta_eq]
    simp [List.mem_append, or_assoc]
  have hA : ∀ p ∈ current, bucketOf accF.state p.1 p.2 =
      Bucket.unchanged := by
    intro p hp
    have hvpos : 0 < p.2 := hpos p hp
    have hvget : dget current p.1 = some p.2 := mem_dget_of_nodup hnc hp
    have hnotdel : p.1 ∉ delta.deleted := by
      rw [hdel_eq]
      exact not_mem_deletedIds_of_present hvget
    have hgetF : dget accF.state.pages p.1 = dget acc1.state.pages p.1 := by
      rw [haccF, deleteFold_pages_get, if_neg hnotdel]
    by_cases hbu : bucketOf state p.1 p.2 = Bucket.unchanged
    · have hnE : p.1 ∉ E := by
        intro hmem
        rcases (hEmem p.1).mp hmem with h | h | h <;>
          simp [mem_bucketIds_iff_of_nodup hnc hvget, hbu] at h
      have hgets : dget acc1.state.pages p.1 = dget state.pages p.1 := by
        rw [hacc1, exportFold_pages_get, if_neg (fun hand => hnE hand.1)]
      have hcongr : bucketOf accF.state p.1 p.2 =
          bucketOf state p.1 p.2 :=
        bucketOf_congr p.1 p.2 (hgetF.trans hgets) hmt1
      rw [hcongr, hbu]
    · have hmemE : p.1 ∈ E := by
        apply (hEmem p.1).mpr
        cases hb : bucketOf state p.1 p.2 with
        | new =>
          exact Or.inl ((mem_bucketIds_iff_of_nodup hnc hvget).mpr hb)
        | modified =>
          exact Or.inr
            (Or.inl ((mem_bucketIds_iff_of_nodup hnc hvget).mpr hb))
        | stale =>
          exact Or.inr
            (Or.inr ((mem_bucketIds_iff_of_nodup hnc hvget).mpr hb))
        | deleted => exact absurd hb (bucketOf_ne_deleted _ _ _)
        | unchanged => exact absurd hb hbu
      have hgetE : dget acc1.state.pages p.1 =
          some ⟨env.fetchVersion p.1, env.exportTime p.1, env.fetchPath p.1,
            Status.active⟩ := by
        rw [hacc1, exportFold_pages_get, if_pos ⟨hmemE, hacc p hp⟩]
      have hrec : dget accF.state.pages p.1 =
          some ⟨p.2, env.exportTime p.1, env.fetchPath p.1,
            Status.active⟩ := by
        rw [hgetF, hgetE, hfetch p hp]
      refine bucketOf_active_rec accF.state p.1 p.2 _ hrec
        (by simp) hvpos (by simp) ?_
      unfold isStale
      rw [hmt1]
      cases hmtv : state.min_export_timestamp with
      | none => rfl
      | some t =>
        have ht := hnow t hmtv p.1
        simp only [decide_eq_false_iff_not]
        omega
  have hnp1 : nodupKeys accF.state.pages := by
    rw [haccF]
    apply deleteFold_nodup
    rw [hacc1]
    exact exportFold_nodup env E acc0 hnp
  have hB : ∀ q ∈ accF.state.pages,
      ¬(q.2.status ≠ Status.deleted ∧ dget current q.1 = none) := by
    rintro q hq ⟨hqact, hqabs⟩
    have hqget : dget accF.state.pages q.1 = some q.2 :=
      mem_dget_of_nodup hnp1 hq
    by_cases hdelmem : q.1 ∈ delta.deleted
    · rw [haccF, deleteFold_pages_get, if_pos hdelmem] at hqget
      cases hv : dget acc1.state.pages q.1 with
      | none =>
        rw [hv] at hqget
        cases hqget
      | some ps =>
        rw [hv] at hqget
        have hstat : q.2.status = Status.deleted := by
          injection hqget with h
          rw [← h]
        exact hqact hstat
    · rw [haccF, deleteFold_pages_get, if_neg hdelmem] at hqget
      by_cases hE1 : q.1 ∈ E ∧ env.fetchAccessible q.1 = true
      · rcases (hEmem q.1).mp hE1.1 with h | h | h <;>
          exact not_mem_bucketIds_of_absent hqabs h
      · rw [hacc1, exportFold_pages_get, if_neg hE1] at hqget
        have hmem : q.1 ∈ deletedIds state.pages current :=
          (mem_deletedIds_iff hnp).mpr ⟨q.2, hqget, hqact, hqabs⟩
        rw [hdel_eq] at hdelmem
        exact hdelmem hmem
  rw [hexec, compute_delta_eq]
  have hbuckets : ∀ b, b ≠ Bucket.unchanged →
      bucketIds accF.state current b = [] := by
    intro b hb
    unfold bucketIds
    have hfil : current.filter
        (fun p => decide (bucketOf accF.state p.1 p.2 = b)) = [] := by
      rw [List.filter_eq_nil_iff]
      intro p hp
      simp only [decide_eq_true_eq]
      rw [hA p hp]
      exact fun he => hb he.symm
    rw [hfil]
    rfl
  have hunch : bucketIds accF.state current Bucket.unchanged =
      current.map Prod.fst := by
    unfold bucketIds
    congr 1
    rw [List.filter_eq_self]
    intro p hp
    simp only [decide_eq_true_eq]
    exact hA p hp
  have hdels : deletedIds accF.state.pages current = [] := by
    unfold deletedIds
    have hfil : accF.state.pages.filter
        (fun q => decide (q.2.status ≠ Status.deleted ∧
          dget current q.1 = none)) = [] := by
      rw [List.filter_eq_nil_iff]
      intro q hq
      simp only [decide_eq_true_eq]
      exact hB q hq
    rw [hfil]
    rfl
  rw [hbuckets Bucket.new (by decide), hbuckets Bucket.modified (by decide),
    hbuckets Bucket.stale (by decide), hdels, hunch]

/-- Witness for the amended C7 at a concrete two-page state. -/
theorem c7_sync_idempotent_witness :
    nodupKeys exCurrent ∧ nodupKeys exState.pages ∧
    (∀ p ∈ exCurrent, 0 < p.2) ∧
    (∀ p ∈ exCurrent, c7wEnv.fetchVersion p.1 = p.2) ∧
    (∀ p ∈ exCurrent, c7wEnv.fetchAccessible p.1 = true) ∧
    compute_delta
      (execute_sync c7wEnv (fun _ => false) exState
        (compute_delta exState exCurrent) false).state exCurrent =
      { new := [], modified := [], stale := [], deleted := [],
        unchanged := exCurrent.map Prod.fst } :=
  ⟨by decide, by decide, by decide, by decide, by decide,
    c7_sync_idempotent c7wEnv (fun _ => false) exState exCurrent
      (by decide) (by decide) (by decide) (by decide) (by decide)
      (fun t ht => nomatch ht)⟩

end Cme
